import Mathlib

/-!
Shallow embedding of the band-diagram repository (band.py, material.py) over
ideal real numbers, together with theorems settling the frozen claims about
its specification.

Modelling conventions:
* numpy float arithmetic is idealised as arithmetic on `ℝ`;
* a numpy array of length `n` is a function `ℕ → ℝ` together with the point
  count stored in the device state (all reads performed by the embedded code
  stay below the point count on the states the claims quantify over);
* Python's builtin `round` (round-half-to-even on floats) is `pyRound`;
* `np.sign` is `npSign`, `np.sqrt` is `Real.sqrt`, `np.abs` is `|·|`;
* `warnings.warn` carries no data flow; the payload of the overflow warning
  (the list of offending layer indices) is modelled by the function
  `Band.overflow` so that theorems can speak about it;
* the constructor `band_diagram.__init__` builds no state when the layer
  list is `[]` (it only prints a message); `Band.init` models the branches
  on which construction succeeds, and `Band.initE` additionally models the
  outcomes on which the Python constructor raises: `np.linspace` raises
  ValueError for a negative point count, the span computation
  `round(partial_thickness/self.thickness*n_points)` raises
  ZeroDivisionError when the total thickness is zero, and `np.zeros` /
  `np.ones` raise ValueError when a layer's block sizes come out negative.
-/

namespace Band

noncomputable section

/-- `EPSILON_0` from band.py (C V⁻¹ cm⁻¹). -/
def EPSILON_0 : ℝ := 8.8541878128e-14

/-- `E_CHARGE` from band.py (C). -/
def E_CHARGE : ℝ := 1.602176634e-19

/-- Python's builtin `round`: nearest integer, ties to even. -/
def pyRound (x : ℝ) : ℤ :=
  if Int.fract x = 1/2 then (if Even ⌊x⌋ then ⌊x⌋ else ⌊x⌋ + 1) else round x

/-- `np.sign` on reals. -/
def npSign (x : ℝ) : ℝ := if 0 < x then 1 else if x < 0 then -1 else 0

/-- Runtime kind of a material instance (`type(mat) is material.metal`, …). -/
inductive MatKind | metal | semiconductor | generic
deriving DecidableEq

/-- A material: dielectric constant, the three levels, and (for
semiconductors) the carrier densities `n`, `p`.  `E0` is set by the
`material.__init__` constructor as `Ec + work`. -/
structure Material where
  kind : MatKind
  epsilon : ℝ
  Ec : ℝ
  Ev : ℝ
  E0 : ℝ
  n : ℝ
  p : ℝ

/-- `material.__init__(epsilon, Ec, Ev, work)`: stores the levels with
`E0 = Ec + work`.  The carrier densities are placeholders (the Python object
has no such attributes unless the semiconductor constructor sets them; the
density lookup never reads them for other kinds). -/
def mkMaterial (kind : MatKind) (epsilon Ec Ev work n p : ℝ) : Material :=
  ⟨kind, epsilon, Ec, Ev, Ec + work, n, p⟩

/-- `material.metal(work_function)`: `super().__init__(1e30, 0, 0, work_function)`. -/
def metal (work : ℝ) : Material := mkMaterial .metal 1e30 0 0 work 0 0

/-- `semiconductor.is_p_doped`. -/
def isPDoped (m : Material) : Prop := m.p > m.n

instance (m : Material) : Decidable (isPDoped m) := by unfold isPDoped; infer_instance

/-- Per-layer electronic density lookup of `band_diagram.__bend`
(band.py lines 153-166): metals get the fixed sentinel `1e23`, semiconductors
their majority-carrier density, anything else density `0.0` (with a warning). -/
def density (m : Material) : ℝ :=
  match m.kind with
  | .metal => 1e23
  | .semiconductor => if isPDoped m then m.p else m.n
  | .generic => 0

/-- `material.layer`: a thickness coupled with a material. -/
structure Layer where
  thickness : ℝ
  material : Material

def defaultLayer : Layer := ⟨0, ⟨.generic, 0, 0, 0, 0, 0, 0⟩⟩

/-- `sum([layer.thickness for layer in self.layers])`. -/
def totalThickness (L : List Layer) : ℝ := (L.map Layer.thickness).sum

/-- The running `partial_thickness` of the reset loop before layer `i`. -/
def cumThickness : List Layer → ℕ → ℝ
  | _, 0 => 0
  | [], _ + 1 => 0
  | l :: ls, i + 1 => l.thickness + cumThickness ls i

/-- `round(partial_thickness/self.thickness*n_points)` for layer `i`
(band.py line 111); `.toNat` because the index is used to address arrays
(nonnegative on every input within the claims' scope). -/
def layerStart (L : List Layer) (n : ℕ) (i : ℕ) : ℕ :=
  (pyRound (cumThickness L i / totalThickness L * n)).toNat

/-- The per-point level built by the reset loop: each layer contributes its
flat material value on the index span `[layerStart i, layerStart (i+1))` and
zero outside, and the contributions are summed (band.py lines 114-118). -/
def flatLevel (f : Material → ℝ) (L : List Layer) (n : ℕ) (j : ℕ) : ℝ :=
  ∑ i in Finset.range L.length,
    if layerStart L n i ≤ j ∧ j < layerStart L n (i + 1)
    then f (L.getD i defaultLayer).material else 0

/-- The interface list: the start index of every layer, with the leading
`0`-th entry removed (`del self.interfaces[0]`, band.py lines 109-121). -/
def interfacesOf (L : List Layer) (n : ℕ) : List ℕ :=
  ((List.range L.length).map (layerStart L n)).tail

/-- The mutable state of a `band_diagram` device. -/
structure State where
  layers : List Layer
  nPoints : ℕ
  Ec : ℕ → ℝ
  Ev : ℕ → ℝ
  E0 : ℕ → ℝ
  Ef : ℕ → ℝ
  interfaces : List ℕ

/-- The state built by `band_diagram.reset(layers, n_points)` from a given
layer list: flat levels, all-zero Fermi array, interface list. -/
def mkState (L : List Layer) (n : ℕ) : State where
  layers := L
  nPoints := n
  Ec := flatLevel Material.Ec L n
  Ev := flatLevel Material.Ev L n
  E0 := flatLevel Material.E0 L n
  Ef := fun _ => 0
  interfaces := interfacesOf L n

/-- `band_diagram.reset()` called on an existing device: the stored layer
list is kept (the `layers` argument defaults to `[]`, which leaves
`self.layers` untouched) and everything is recomputed for `n` points. -/
def reset (s : State) (n : ℕ) : State := mkState s.layers n

/-- `band_diagram.__init__(layers, n_points)` restricted to the inputs on
which construction completes: for a non-empty list it runs `reset`; for `[]`
it only prints a message and initializes no state.  The error outcomes the
Python constructor can raise on other inputs (negative point count, zero
total thickness, negative block sizes) are modelled by `initE` below, which
agrees with `init` on every input where it returns a constructed state
(`initE_ok_imp_init`). -/
def init : List Layer → ℕ → Option State
  | [], _ => none
  | l :: ls, n => some (mkState (l :: ls) n)

/-- Outcome of running `band_diagram.__init__`: a constructed device, the
empty-list branch (a message is printed, no state is initialized, no
exception), or one of the exceptions the constructor can raise. -/
inductive InitOutcome where
  | ok (s : State)
  | printOnly
  | valueError
  | zeroDivision

/-- The signed value of `round(partial_thickness/self.thickness*n_points)`
for layer `i` (`layerStart` is its truncation to ℕ). -/
def layerStartZ (L : List Layer) (nn : ℕ) (i : ℕ) : ℤ :=
  pyRound (cumThickness L i / totalThickness L * nn)

/-- The numpy block sizes built by the reset loop are all nonnegative: for
each layer, `np.zeros(start)`, `value*np.ones(end-start)` and
`np.zeros(n_points-end)` receive nonnegative sizes.  When any size is
negative, numpy raises ValueError. -/
def blocksOk (L : List Layer) (nn : ℕ) : Prop :=
  ∀ i < L.length, 0 ≤ layerStartZ L nn i ∧
    layerStartZ L nn i ≤ layerStartZ L nn (i + 1) ∧
    layerStartZ L nn (i + 1) ≤ (nn : ℤ)

instance (L : List Layer) (nn : ℕ) : Decidable (blocksOk L nn) := by
  unfold blocksOk; infer_instance

/-- `band_diagram.__init__(layers, n_points)` with its error outcomes, in
the order Python encounters them: the empty-list branch prints and builds
nothing; `np.linspace(0, T, n_points)` raises ValueError for a negative
point count; with a non-empty layer list the first loop iteration divides
by `self.thickness` and raises ZeroDivisionError when the total thickness
is zero; a negative block size in any layer's concatenation raises
ValueError; otherwise the reset state is built. -/
def initE : List Layer → ℤ → InitOutcome
  | [], _ => .printOnly
  | l :: ls, n =>
    if n < 0 then .valueError
    else if totalThickness (l :: ls) = 0 then .zeroDivision
    else if blocksOk (l :: ls) n.toNat then .ok (mkState (l :: ls) n.toNat)
    else .valueError

/-- `np.linspace(0, T, n)` at index `j`. -/
def gridPoint (T : ℝ) (n : ℕ) (j : ℕ) : ℝ := j * T / ((n : ℝ) - 1)

/-- `densities[i]` of the bend loop. -/
def layerDensity (L : List Layer) (i : ℕ) : ℝ := density (L.getD i defaultLayer).material

/-- `epsilons[i]` of the bend loop. -/
def layerEpsilon (L : List Layer) (i : ℕ) : ℝ := (L.getD i defaultLayer).material.epsilon

/-- `thicknesses[i]` of the bend loop. -/
def layerThickness (L : List Layer) (i : ℕ) : ℝ := (L.getD i defaultLayer).thickness

/-- The discontinuity read by `__bend` at interface position `pos`
(band.py lines 174-177): `Ef[position+1]-Ef[position-1]` in Fermi mode,
`E0[position]-E0[position-1]` otherwise. -/
def deltaV (s : State) (fermi : Bool) (pos : ℕ) : ℝ :=
  if fermi then s.Ef (pos + 1) - s.Ef (pos - 1) else s.E0 pos - s.E0 (pos - 1)

/-- The common factor `a` of the depletion-width formulas (band.py 179-182). -/
def aFactor (s : State) (fermi : Bool) (i pos : ℕ) : ℝ :=
  Real.sqrt (2 * EPSILON_0 * layerEpsilon s.layers i * layerEpsilon s.layers (i + 1) /
    (layerDensity s.layers i * layerEpsilon s.layers i +
      layerDensity s.layers (i + 1) * layerEpsilon s.layers (i + 1)) *
    |deltaV s fermi pos| / E_CHARGE)

/-- `depletion_left = a*np.sqrt(densities[i+1]/densities[i])*1e4` (µm). -/
def depletion_left (s : State) (fermi : Bool) (i pos : ℕ) : ℝ :=
  aFactor s fermi i pos *
    Real.sqrt (layerDensity s.layers (i + 1) / layerDensity s.layers i) * 1e4

/-- `depletion_right = a*np.sqrt(densities[i]/densities[i+1])*1e4` (µm). -/
def depletion_right (s : State) (fermi : Bool) (i pos : ℕ) : ℝ :=
  aFactor s fermi i pos *
    Real.sqrt (layerDensity s.layers i / layerDensity s.layers (i + 1)) * 1e4

/-- The `start` index of the bending window (band.py 187-191): clamped to the
left layer's thickness on overflow. -/
def bendStart (s : State) (fermi : Bool) (i pos : ℕ) : ℤ :=
  if depletion_left s fermi i pos > layerThickness s.layers i
  then pyRound ((pos : ℝ) - layerThickness s.layers i / totalThickness s.layers * s.nPoints)
  else pyRound ((pos : ℝ) - depletion_left s fermi i pos / totalThickness s.layers * s.nPoints)

/-- The `end` index of the bending window (band.py 193-197). -/
def bendEnd (s : State) (fermi : Bool) (i pos : ℕ) : ℤ :=
  if depletion_right s fermi i pos > layerThickness s.layers (i + 1)
  then pyRound ((pos : ℝ) + layerThickness s.layers (i + 1) / totalThickness s.layers * s.nPoints)
  else pyRound ((pos : ℝ) + depletion_right s fermi i pos / totalThickness s.layers * s.nPoints)

/-- The payload of the overflow warning: the list `overflow` of offending
layer indices accumulated in band.py lines 186-199. -/
def overflow (s : State) (fermi : Bool) (i pos : ℕ) : List ℕ :=
  (if depletion_left s fermi i pos > layerThickness s.layers i then [i] else []) ++
  (if depletion_right s fermi i pos > layerThickness s.layers (i + 1) then [i + 1] else [])

/-- `c = np.sign(delta_V)*1e-8*E_CHARGE/(2*EPSILON_0)` (band.py line 203). -/
def bendC (s : State) (fermi : Bool) (pos : ℕ) : ℝ :=
  npSign (deltaV s fermi pos) * 1e-8 * E_CHARGE / (2 * EPSILON_0)

/-- The `bending` array built per interface (band.py lines 204-209): zero
before `start`, the left quadratic on `[start, position)`, the mirrored right
quadratic on `[position, end)`, zero from `end` on. -/
def bending (s : State) (fermi : Bool) (i pos : ℕ) (j : ℕ) : ℝ :=
  if j < (bendStart s fermi i pos).toNat then 0
  else if j < pos then
    bendC s fermi pos * layerDensity s.layers i / layerEpsilon s.layers i *
      (gridPoint (totalThickness s.layers) s.nPoints j -
        (pos : ℝ) * totalThickness s.layers / s.nPoints + depletion_left s fermi i pos) ^ 2
  else if j < (bendEnd s fermi i pos).toNat then
    -bendC s fermi pos * layerDensity s.layers (i + 1) / layerEpsilon s.layers (i + 1) *
      (gridPoint (totalThickness s.layers) s.nPoints j -
        (pos : ℝ) * totalThickness s.layers / s.nPoints - depletion_right s fermi i pos) ^ 2
  else 0

/-- One iteration of `__bend`'s interface loop: the bending contribution is
added to `Ef` in Fermi mode and to all three level arrays otherwise
(band.py lines 211-215). -/
def bendStep (fermi : Bool) (s : State) (ip : ℕ × ℕ) : State :=
  if fermi then { s with Ef := fun j => s.Ef j + bending s fermi ip.1 ip.2 j }
  else { s with
    Ec := fun j => s.Ec j + bending s fermi ip.1 ip.2 j,
    Ev := fun j => s.Ev j + bending s fermi ip.1 ip.2 j,
    E0 := fun j => s.E0 j + bending s fermi ip.1 ip.2 j }

/-- `band_diagram.__bend(fermi)`: visit the interfaces in order; each later
interface reads the arrays already updated by the earlier ones. -/
def bendPass (fermi : Bool) (s : State) : State :=
  s.interfaces.enum.foldl (bendStep fermi) s

/-- `band_diagram.bend(fermi)` (band.py lines 140-142): always one default
pass on the levels, followed by a Fermi pass when `fermi` is true. -/
def bend (fermi : Bool) (s : State) : State :=
  let s1 := bendPass false s
  if fermi then bendPass true s1 else s1

/-- `positions = [0] + self.interfaces + [n_points]` of `apply_voltage`. -/
def positionsOf (s : State) : List ℕ := 0 :: (s.interfaces ++ [s.nPoints])

/-- The per-point step array `volts` of `apply_voltage` (band.py 323-327). -/
def voltArray (s : State) (volt : ℝ) (index : ℕ) (j : ℕ) : ℝ :=
  if (positionsOf s).getD index 0 ≤ j ∧ j < (positionsOf s).getD (index + 1) 0 then volt else 0

/-- `band_diagram.apply_voltage(volt, index)`: subtract the step array from
the Fermi array and from every level array; the default target is the last
layer (band.py lines 292-333). -/
def apply_voltage (s : State) (volt : ℝ) (index : Option ℕ) : State :=
  let idx := index.getD s.interfaces.length
  { s with
    Ef := fun j => s.Ef j - voltArray s volt idx j,
    Ec := fun j => s.Ec j - voltArray s volt idx j,
    Ev := fun j => s.Ev j - voltArray s volt idx j,
    E0 := fun j => s.E0 j - voltArray s volt idx j }

/-- A public mutating call on a device: `bend` or `apply_voltage`. -/
inductive Op where
  | bendOp (fermi : Bool)
  | voltOp (volt : ℝ) (index : Option ℕ)

def applyOp (s : State) : Op → State
  | .bendOp fermi => bend fermi s
  | .voltOp v idx => apply_voltage s v idx

/-- A finite call history of `bend` / `apply_voltage` invocations. -/
def applyOps (s : State) (ops : List Op) : State := ops.foldl applyOp s

/-- The depletion common factor exactly as the specification writes it:
`sqrt( 2·ε₀·ε_left·ε_right / (density_left·ε_left + density_right·ε_right) · |ΔV| / e )`. -/
def aFactorSpec (dl el dr er dV : ℝ) : ℝ :=
  Real.sqrt (2 * EPSILON_0 * el * er / (dl * el + dr * er) * (|dV| / E_CHARGE))

/-- A work-function offset chosen so that the metal/metal depletion widths
below come out as exactly 1 µm. -/
def ovV : ℝ := E_CHARGE / (EPSILON_0 * 1e15)

/-- Concrete two-metal device (two 1/4 µm layers, 4 grid points) whose single
interface has depletion width exactly 1 µm on both sides: both sides
overflow their layer thickness. -/
def ovDev : State := mkState [⟨1/4, metal 0⟩, ⟨1/4, metal ovV⟩] 4

/-- Concrete three-layer device whose middle layer spans a single grid
point (grid point 2 of 4). -/
def stepBase : State := mkState [⟨2, metal 0⟩, ⟨1, metal 0⟩, ⟨1, metal 0⟩] 4

/-- `stepBase` after applying 1 V to the middle layer: the Fermi array is
nonzero exactly at grid point 2. -/
def stepDev : State := apply_voltage stepBase 1 (some 1)

/-- Concrete device whose first layer is far thinner than a grid cell: its
interface index rounds down to 0. -/
def thinDev : State := mkState [⟨1, metal 0⟩, ⟨999, metal 0⟩] 10

end

end Band

namespace Band

/-! ### Helper lemmas about `pyRound` -/

lemma pyRound_low {x : ℝ} {k : ℤ} (h1 : (k : ℝ) ≤ x) (h2 : x < k + 1/2) :
    pyRound x = k := by
  have hfl : ⌊x⌋ = k := Int.floor_eq_iff.2 ⟨h1, by linarith⟩
  have hfr : Int.fract x ≠ 1/2 := by
    rw [← Int.self_sub_floor, hfl]
    intro hc
    have : x = (k : ℝ) + 1/2 := by linarith
    linarith
  unfold pyRound
  rw [if_neg hfr, round_eq]
  exact Int.floor_eq_iff.2 ⟨by linarith, by linarith⟩

lemma pyRound_high {x : ℝ} {k : ℤ} (h1 : (k : ℝ) + 1/2 < x) (h2 : x < k + 1) :
    pyRound x = k + 1 := by
  have hfl : ⌊x⌋ = k := Int.floor_eq_iff.2 ⟨by linarith, by linarith⟩
  have hfr : Int.fract x ≠ 1/2 := by
    rw [← Int.self_sub_floor, hfl]
    intro hc
    have : x = (k : ℝ) + 1/2 := by linarith
    linarith
  unfold pyRound
  rw [if_neg hfr, round_eq]
  exact Int.floor_eq_iff.2 ⟨by push_cast; linarith, by push_cast; linarith⟩

lemma pyRound_intCast (k : ℤ) : pyRound (k : ℝ) = k :=
  pyRound_low le_rfl (by linarith)

lemma pyRound_mono {x y : ℝ} (h : x ≤ y) : pyRound x ≤ pyRound y := by
  unfold pyRound
  by_cases hx : Int.fract x = 1/2 <;> by_cases hy : Int.fract y = 1/2
  · have hxe : x = (⌊x⌋ : ℝ) + 1/2 := by
      rw [← Int.self_sub_floor] at hx; linarith
    have hye : y = (⌊y⌋ : ℝ) + 1/2 := by
      rw [← Int.self_sub_floor] at hy; linarith
    have hfl : ⌊x⌋ ≤ ⌊y⌋ := Int.floor_mono h
    rw [if_pos hx, if_pos hy]
    rcases eq_or_lt_of_le hfl with he | hlt
    · rw [he]
    · split_ifs <;> omega
  · have hxe : x = (⌊x⌋ : ℝ) + 1/2 := by
      rw [← Int.self_sub_floor] at hx; linarith
    rw [if_pos hx, if_neg hy, round_eq]
    have hle : (⌊x⌋ + 1 : ℤ) ≤ ⌊y + 1/2⌋ := Int.le_floor.2 (by push_cast; linarith)
    split_ifs <;> omega
  · have hye : y = (⌊y⌋ : ℝ) + 1/2 := by
      rw [← Int.self_sub_floor] at hy; linarith
    have hne : x ≠ y := fun hc => hx (by rw [hc]; exact hy)
    have hlt : x < y := lt_of_le_of_ne h hne
    rw [if_neg hx, if_pos hy, round_eq]
    have hfle : ⌊x + 1/2⌋ < ⌊y⌋ + 1 := Int.floor_lt.2 (by push_cast; linarith)
    split_ifs <;> omega
  · rw [if_neg hx, if_neg hy, round_eq, round_eq]
    exact Int.floor_mono (by linarith)

lemma pyRound_nonneg {x : ℝ} (h : 0 ≤ x) : 0 ≤ pyRound x := by
  have h0 : pyRound ((0 : ℤ) : ℝ) = 0 := pyRound_intCast 0
  rw [Int.cast_zero] at h0
  exact h0 ▸ pyRound_mono h

lemma pyRound_le_of_le {x : ℝ} {k : ℤ} (h : x ≤ k) : pyRound x ≤ k := by
  have := pyRound_mono h
  rwa [pyRound_intCast] at this

/-! ### Frame lemmas for the bending passes -/

lemma bendStep_false_Ef (s : State) (ip : ℕ × ℕ) : (bendStep false s ip).Ef = s.Ef := by
  simp [bendStep]

lemma bendStep_false_layers (s : State) (ip : ℕ × ℕ) :
    (bendStep false s ip).layers = s.layers := by simp [bendStep]

lemma bendStep_false_nPoints (s : State) (ip : ℕ × ℕ) :
    (bendStep false s ip).nPoints = s.nPoints := by simp [bendStep]

lemma bendStep_false_interfaces (s : State) (ip : ℕ × ℕ) :
    (bendStep false s ip).interfaces = s.interfaces := by simp [bendStep]

lemma bendStep_false_Ec_apply (s : State) (ip : ℕ × ℕ) (j : ℕ) :
    (bendStep false s ip).Ec j = s.Ec j + bending s false ip.1 ip.2 j := by simp [bendStep]

lemma bendStep_false_Ev_apply (s : State) (ip : ℕ × ℕ) (j : ℕ) :
    (bendStep false s ip).Ev j = s.Ev j + bending s false ip.1 ip.2 j := by simp [bendStep]

lemma bendStep_true_Ec (s : State) (ip : ℕ × ℕ) : (bendStep true s ip).Ec = s.Ec := by
  simp [bendStep]

lemma bendStep_true_Ev (s : State) (ip : ℕ × ℕ) : (bendStep true s ip).Ev = s.Ev := by
  simp [bendStep]

lemma bendStep_true_E0 (s : State) (ip : ℕ × ℕ) : (bendStep true s ip).E0 = s.E0 := by
  simp [bendStep]

lemma bendStep_true_layers (s : State) (ip : ℕ × ℕ) :
    (bendStep true s ip).layers = s.layers := by simp [bendStep]

lemma bendStep_true_nPoints (s : State) (ip : ℕ × ℕ) :
    (bendStep true s ip).nPoints = s.nPoints := by simp [bendStep]

lemma bendStep_true_interfaces (s : State) (ip : ℕ × ℕ) :
    (bendStep true s ip).interfaces = s.interfaces := by simp [bendStep]

lemma foldl_bendStep_false_Ef :
    ∀ (l : List (ℕ × ℕ)) (s : State), (l.foldl (bendStep false) s).Ef = s.Ef
  | [], _ => rfl
  | a :: l, s => by
    rw [List.foldl_cons, foldl_bendStep_false_Ef l, bendStep_false_Ef]

lemma foldl_bendStep_false_layers :
    ∀ (l : List (ℕ × ℕ)) (s : State), (l.foldl (bendStep false) s).layers = s.layers
  | [], _ => rfl
  | a :: l, s => by
    rw [List.foldl_cons, foldl_bendStep_false_layers l, bendStep_false_layers]

lemma foldl_bendStep_false_nPoints :
    ∀ (l : List (ℕ × ℕ)) (s : State), (l.foldl (bendStep false) s).nPoints = s.nPoints
  | [], _ => rfl
  | a :: l, s => by
    rw [List.foldl_cons, foldl_bendStep_false_nPoints l, bendStep_false_nPoints]

lemma foldl_bendStep_false_interfaces :
    ∀ (l : List (ℕ × ℕ)) (s : State), (l.foldl (bendStep false) s).interfaces = s.interfaces
  | [], _ => rfl
  | a :: l, s => by
    rw [List.foldl_cons, foldl_bendStep_false_interfaces l, bendStep_false_interfaces]

lemma foldl_bendStep_false_gap :
    ∀ (l : List (ℕ × ℕ)) (s : State) (j : ℕ),
      (l.foldl (bendStep false) s).Ec j - (l.foldl (bendStep false) s).Ev j =
        s.Ec j - s.Ev j
  | [], _, _ => rfl
  | a :: l, s, j => by
    rw [List.foldl_cons, foldl_bendStep_false_gap l, bendStep_false_Ec_apply,
      bendStep_false_Ev_apply]
    ring

lemma foldl_bendStep_true_Ec :
    ∀ (l : List (ℕ × ℕ)) (s : State), (l.foldl (bendStep true) s).Ec = s.Ec
  | [], _ => rfl
  | a :: l, s => by
    rw [List.foldl_cons, foldl_bendStep_true_Ec l, bendStep_true_Ec]

lemma foldl_bendStep_true_Ev :
    ∀ (l : List (ℕ × ℕ)) (s : State), (l.foldl (bendStep true) s).Ev = s.Ev
  | [], _ => rfl
  | a :: l, s => by
    rw [List.foldl_cons, foldl_bendStep_true_Ev l, bendStep_true_Ev]

lemma foldl_bendStep_true_E0 :
    ∀ (l : List (ℕ × ℕ)) (s : State), (l.foldl (bendStep true) s).E0 = s.E0
  | [], _ => rfl
  | a :: l, s => by
    rw [List.foldl_cons, foldl_bendStep_true_E0 l, bendStep_true_E0]

lemma foldl_bendStep_true_layers :
    ∀ (l : List (ℕ × ℕ)) (s : State), (l.foldl (bendStep true) s).layers = s.layers
  | [], _ => rfl
  | a :: l, s => by
    rw [List.foldl_cons, foldl_bendStep_true_layers l, bendStep_true_layers]

lemma bendPass_layers (fermi : Bool) (s : State) : (bendPass fermi s).layers = s.layers := by
  cases fermi
  · exact foldl_bendStep_false_layers _ _
  · exact foldl_bendStep_true_layers _ _

lemma bend_layers (fermi : Bool) (s : State) : (bend fermi s).layers = s.layers := by
  cases fermi
  · simpa [bend] using bendPass_layers false s
  · show (bendPass true (bendPass false s)).layers = s.layers
    rw [bendPass_layers, bendPass_layers]

lemma apply_voltage_layers (s : State) (v : ℝ) (idx : Option ℕ) :
    (apply_voltage s v idx).layers = s.layers := rfl

lemma applyOp_layers (s : State) (op : Op) : (applyOp s op).layers = s.layers := by
  cases op with
  | bendOp fermi => exact bend_layers fermi s
  | voltOp v idx => rfl

lemma applyOps_layers : ∀ (ops : List Op) (s : State), (applyOps s ops).layers = s.layers
  | [], _ => rfl
  | op :: ops, s => by
    show (applyOps (applyOp s op) ops).layers = s.layers
    rw [applyOps_layers ops, applyOp_layers]

end Band

namespace Band

/-! ### Evaluation lemmas for the concrete devices -/

lemma layerStart_eq {L : List Layer} {n i k : ℕ}
    (h : cumThickness L i / totalThickness L * n = k) : layerStart L n i = k := by
  rw [layerStart, h]
  have : pyRound ((k : ℕ) : ℝ) = (k : ℤ) := by
    rw [← Int.cast_natCast]; exact pyRound_intCast _
  rw [this, Int.toNat_natCast]

lemma EPSILON_0_pos : 0 < EPSILON_0 := by unfold EPSILON_0; norm_num

lemma E_CHARGE_pos : 0 < E_CHARGE := by unfold E_CHARGE; norm_num

lemma ovV_pos : 0 < ovV := by
  unfold ovV E_CHARGE EPSILON_0
  norm_num

lemma ovDev_start0 : layerStart ovDev.layers 4 0 = 0 :=
  layerStart_eq (by norm_num [cumThickness, totalThickness, ovDev, mkState])

lemma ovDev_start1 : layerStart ovDev.layers 4 1 = 2 :=
  layerStart_eq (by norm_num [cumThickness, totalThickness, ovDev, mkState])

lemma ovDev_start2 : layerStart ovDev.layers 4 2 = 4 :=
  layerStart_eq (by norm_num [cumThickness, totalThickness, ovDev, mkState])

lemma ovDev_interfaces : ovDev.interfaces = [2] := by
  show interfacesOf ovDev.layers 4 = [2]
  unfold interfacesOf
  rw [show List.range (ovDev.layers).length = [0, 1] from rfl]
  simp [ovDev_start1]

lemma ovDev_total : totalThickness ovDev.layers = 1/2 := by
  norm_num [totalThickness, ovDev, mkState]

lemma ovDev_E0_1 : ovDev.E0 1 = 0 := by
  show flatLevel Material.E0 ovDev.layers 4 1 = 0
  unfold flatLevel
  rw [show (ovDev.layers).length = 2 from rfl]
  rw [Finset.sum_range_succ, Finset.sum_range_succ, Finset.sum_range_zero]
  rw [ovDev_start0, ovDev_start1, ovDev_start2]
  norm_num [ovDev, mkState, metal, mkMaterial]

lemma ovDev_E0_2 : ovDev.E0 2 = ovV := by
  show flatLevel Material.E0 ovDev.layers 4 2 = ovV
  unfold flatLevel
  rw [show (ovDev.layers).length = 2 from rfl]
  rw [Finset.sum_range_succ, Finset.sum_range_succ, Finset.sum_range_zero]
  rw [ovDev_start0, ovDev_start1, ovDev_start2]
  norm_num [ovDev, mkState, metal, mkMaterial]

lemma ovDev_Ec_1 : ovDev.Ec 1 = 0 := by
  show flatLevel Material.Ec ovDev.layers 4 1 = 0
  unfold flatLevel
  rw [show (ovDev.layers).length = 2 from rfl]
  rw [Finset.sum_range_succ, Finset.sum_range_succ, Finset.sum_range_zero]
  norm_num [ovDev, mkState, metal, mkMaterial]

lemma ovDev_deltaV : deltaV ovDev false 2 = ovV := by
  unfold deltaV
  rw [if_neg (by simp)]
  show ovDev.E0 2 - ovDev.E0 1 = ovV
  rw [ovDev_E0_1, ovDev_E0_2, sub_zero]

lemma ovDev_density0 : layerDensity ovDev.layers 0 = 1e23 := rfl

lemma ovDev_density1 : layerDensity ovDev.layers 1 = 1e23 := rfl

lemma ovDev_epsilon0 : layerEpsilon ovDev.layers 0 = 1e30 := rfl

lemma ovDev_epsilon1 : layerEpsilon ovDev.layers 1 = 1e30 := rfl

lemma ovDev_thickness0 : layerThickness ovDev.layers 0 = 1/4 := rfl

lemma ovDev_thickness1 : layerThickness ovDev.layers 1 = 1/4 := rfl

lemma ovDev_aFactor : aFactor ovDev false 0 2 = 1e-4 := by
  unfold aFactor
  rw [ovDev_density0, ovDev_density1, ovDev_epsilon0, ovDev_epsilon1, ovDev_deltaV,
    abs_of_pos ovV_pos]
  have harg : 2 * EPSILON_0 * 1e30 * 1e30 / (1e23 * 1e30 + 1e23 * 1e30) * ovV / E_CHARGE
      = 1e-8 := by
    unfold ovV E_CHARGE EPSILON_0
    norm_num
  rw [harg, show (1e-8 : ℝ) = (1e-4) ^ 2 by norm_num, Real.sqrt_sq (by norm_num)]

lemma ovDev_depl_left : depletion_left ovDev false 0 2 = 1 := by
  unfold depletion_left
  rw [ovDev_aFactor, ovDev_density0, ovDev_density1]
  rw [show (1e23 : ℝ) / 1e23 = 1 by norm_num, Real.sqrt_one]
  norm_num

lemma ovDev_depl_right : depletion_right ovDev false 0 2 = 1 := by
  unfold depletion_right
  rw [ovDev_aFactor, ovDev_density0, ovDev_density1]
  rw [show (1e23 : ℝ) / 1e23 = 1 by norm_num, Real.sqrt_one]
  norm_num

lemma ovDev_bendStart : bendStart ovDev false 0 2 = 0 := by
  unfold bendStart
  rw [ovDev_depl_left, ovDev_thickness0, ovDev_total]
  rw [if_pos (by norm_num)]
  rw [show ((2 : ℕ) : ℝ) - 1/4 / (1/2) * (ovDev.nPoints : ℝ) = 0 by
    rw [show ovDev.nPoints = 4 from rfl]; norm_num]
  exact_mod_cast pyRound_intCast 0

lemma ovDev_bendEnd : bendEnd ovDev false 0 2 = 4 := by
  unfold bendEnd
  rw [ovDev_depl_right, ovDev_thickness1, ovDev_total]
  rw [if_pos (by norm_num)]
  rw [show ((2 : ℕ) : ℝ) + 1/4 / (1/2) * (ovDev.nPoints : ℝ) = ((4 : ℤ) : ℝ) by
    rw [show ovDev.nPoints = 4 from rfl]; norm_num]
  exact pyRound_intCast 4

lemma ovDev_grid1 : gridPoint (totalThickness ovDev.layers) ovDev.nPoints 1 = 1/6 := by
  rw [ovDev_total, show ovDev.nPoints = 4 from rfl]
  unfold gridPoint
  norm_num

lemma ovDev_bending_pos : 0 < bending ovDev false 0 2 1 := by
  unfold bending
  rw [ovDev_bendStart]
  rw [if_neg (by norm_num), if_pos (by norm_num)]
  rw [ovDev_density0, ovDev_epsilon0, ovDev_grid1, ovDev_depl_left, ovDev_total]
  have hsign : npSign (deltaV ovDev false 2) = 1 := by
    rw [ovDev_deltaV]; unfold npSign; rw [if_pos ovV_pos]
  unfold bendC
  rw [ovDev_deltaV, show npSign ovV = 1 by
    unfold npSign; rw [if_pos ovV_pos]]
  rw [show ovDev.nPoints = 4 from rfl]
  have h1 : (1 : ℝ)/6 - ((2 : ℕ) : ℝ) * (1/2) / ((4 : ℕ) : ℝ) + 1 = 11/12 := by
    norm_num
  rw [h1]
  have := EPSILON_0_pos
  have := E_CHARGE_pos
  positivity

end Band

namespace Band

lemma stepBase_interfaces : stepBase.interfaces = [2, 3] := by
  show interfacesOf stepBase.layers 4 = [2, 3]
  unfold interfacesOf
  rw [show List.range stepBase.layers.length = [0, 1, 2] from rfl]
  have h1 : layerStart stepBase.layers 4 1 = 2 :=
    layerStart_eq (by norm_num [cumThickness, totalThickness, stepBase, mkState])
  have h2 : layerStart stepBase.layers 4 2 = 3 :=
    layerStart_eq (by norm_num [cumThickness, totalThickness, stepBase, mkState])
  simp [h1, h2]

lemma stepDev_Ef (j : ℕ) :
    stepDev.Ef j = -(if 2 ≤ j ∧ j < 3 then (1 : ℝ) else 0) := by
  show stepBase.Ef j - voltArray stepBase 1 1 j = _
  rw [show stepBase.Ef j = 0 from rfl]
  unfold voltArray positionsOf
  rw [stepBase_interfaces]
  norm_num

lemma bend_true_Ec (s : State) : (bend true s).Ec = (bendPass false s).Ec := by
  show (bendPass true (bendPass false s)).Ec = (bendPass false s).Ec
  exact foldl_bendStep_true_Ec _ _

lemma ovDev_bendPass_Ec1 :
    (bendPass false ovDev).Ec 1 = ovDev.Ec 1 + bending ovDev false 0 2 1 := by
  unfold bendPass
  rw [ovDev_interfaces]
  rw [show ([2] : List ℕ).enum = [(0, 2)] from rfl]
  rw [List.foldl_cons, List.foldl_nil]
  exact bendStep_false_Ec_apply ovDev (0, 2) 1

lemma thinDev_interfaces : thinDev.interfaces = [0] := by
  show interfacesOf thinDev.layers 10 = [0]
  unfold interfacesOf
  rw [show List.range thinDev.layers.length = [0, 1] from rfl]
  have h1 : layerStart thinDev.layers 10 1 = 0 := by
    unfold layerStart
    have harg : cumThickness thinDev.layers 1 / totalThickness thinDev.layers * ((10 : ℕ) : ℝ)
        = 1/100 := by
      norm_num [cumThickness, totalThickness, thinDev, mkState]
    rw [harg]
    rw [pyRound_low (k := 0) (by norm_num) (by norm_num)]
    rfl
  simp [h1]

end Band

namespace Band

/-! ### Claim theorems -/

/-- C1: for every interface processed by bend, the depletion widths are
computed from the pre-bend discontinuity ΔV and the adjacent layers'
densities and dielectric constants as
`a = sqrt(2·ε₀·ε_left·ε_right/(density_left·ε_left+density_right·ε_right)·|ΔV|/e)`,
`depletion_left = a·sqrt(density_right/density_left)` and
`depletion_right = a·sqrt(density_left/density_right)`, converted to
micrometers by the fixed multiplicative factor `1e4`. -/
theorem depletion_width_formula (s : State) (fermi : Bool) (i pos : ℕ) :
    depletion_left s fermi i pos =
      aFactorSpec (layerDensity s.layers i) (layerEpsilon s.layers i)
        (layerDensity s.layers (i + 1)) (layerEpsilon s.layers (i + 1))
        (deltaV s fermi pos) *
        Real.sqrt (layerDensity s.layers (i + 1) / layerDensity s.layers i) * 1e4 ∧
    depletion_right s fermi i pos =
      aFactorSpec (layerDensity s.layers i) (layerEpsilon s.layers i)
        (layerDensity s.layers (i + 1)) (layerEpsilon s.layers (i + 1))
        (deltaV s fermi pos) *
        Real.sqrt (layerDensity s.layers i / layerDensity s.layers (i + 1)) * 1e4 := by
  constructor
  · unfold depletion_left aFactor aFactorSpec
    rw [mul_div_assoc]
  · unfold depletion_right aFactor aFactorSpec
    rw [mul_div_assoc]

/-- C3 counterexample: on the concrete device `stepDev`, at interface
position 2, the Fermi-mode discontinuity computed by `__bend` is
`Ef[3] - Ef[1] = 0`, not the value at the grid point just right of the
interface minus the value just left of it, `Ef[2] - Ef[1] = -1`. -/
theorem deltaV_adjacent_counterexample :
    deltaV stepDev true 2 ≠ stepDev.Ef 2 - stepDev.Ef 1 := by
  norm_num [deltaV, stepDev_Ef]

/-- C3 amended: in the default mode `bend` reads the discontinuity from the
vacuum array at the points adjacent to the interface, `E0[pos] - E0[pos-1]`;
in Fermi mode it instead reads `Ef[pos+1] - Ef[pos-1]`, i.e. the Fermi value
one grid point further right, not the point just right of the interface. -/
theorem deltaV_reads_amended (s : State) (pos : ℕ) :
    deltaV s false pos = s.E0 pos - s.E0 (pos - 1) ∧
    deltaV s true pos = s.Ef (pos + 1) - s.Ef (pos - 1) := ⟨rfl, rfl⟩

/-- C5 counterexample: on the concrete device `ovDev`, the single call
`bend(fermi=True)` changes the conduction level array at grid point 1: the
public `bend` always runs a default level-bending pass before the Fermi
pass, so Ec, Ev, E0 are not left unchanged by that call. -/
theorem bend_fermi_levels_counterexample :
    (bend true ovDev).Ec 1 ≠ ovDev.Ec 1 := by
  rw [bend_true_Ec, ovDev_bendPass_Ec1, ovDev_Ec_1]
  have := ovDev_bending_pos
  exact ne_of_gt (by linarith)

/-- C5 amended: the private Fermi pass `__bend(fermi=True)` adds its bending
contribution only to the Fermi array — at every grid point Ec, Ev and E0 are
unchanged by that pass; but the public `bend` with apply_to_fermi true
equals a default level-bending pass followed by that Fermi-only pass, so a
single public call does modify the level arrays in general. -/
theorem fermi_pass_only_Ef (s : State) (j : ℕ) :
    (bendPass true s).Ec j = s.Ec j ∧ (bendPass true s).Ev j = s.Ev j ∧
    (bendPass true s).E0 j = s.E0 j ∧
    bend true s = bendPass true (bendPass false s) := by
  refine ⟨?_, ?_, ?_, rfl⟩
  · rw [show (bendPass true s).Ec = s.Ec from foldl_bendStep_true_Ec _ _]
  · rw [show (bendPass true s).Ev = s.Ev from foldl_bendStep_true_Ev _ _]
  · rw [show (bendPass true s).E0 = s.E0 from foldl_bendStep_true_E0 _ _]

/-- C6: at every grid point the bandgap Ec − Ev is unchanged by a
default-mode bend call and by any apply_voltage call: both operations shift
Ec, Ev (and E0) by the same additive amount at each point. -/
theorem bandgap_invariant (s : State) (j : ℕ) (v : ℝ) (idx : Option ℕ) :
    (bend false s).Ec j - (bend false s).Ev j = s.Ec j - s.Ev j ∧
    (apply_voltage s v idx).Ec j - (apply_voltage s v idx).Ev j = s.Ec j - s.Ev j := by
  constructor
  · show (bendPass false s).Ec j - (bendPass false s).Ev j = s.Ec j - s.Ev j
    exact foldl_bendStep_false_gap _ _ _
  · show (s.Ec j - voltArray s v (idx.getD s.interfaces.length) j) -
      (s.Ev j - voltArray s v (idx.getD s.interfaces.length) j) = s.Ec j - s.Ev j
    ring

lemma layerStartZ_eq {L : List Layer} {nn i : ℕ} {k : ℤ}
    (h : cumThickness L i / totalThickness L * nn = (k : ℝ)) : layerStartZ L nn i = k := by
  rw [layerStartZ, h, pyRound_intCast]

lemma layerStartZ_zero (L : List Layer) (nn : ℕ) : layerStartZ L nn 0 = 0 := by
  unfold layerStartZ
  rw [show cumThickness L 0 = 0 by cases L <;> rfl, zero_div, zero_mul]
  rw [show (0 : ℝ) = ((0 : ℤ) : ℝ) by norm_num, pyRound_intCast]

lemma initE_ok_imp_init {L : List Layer} {n : ℤ} {s : State}
    (h : initE L n = .ok s) : init L n.toNat = some s := by
  cases L with
  | nil => exact absurd h (by simp [initE])
  | cons l ls =>
    simp only [initE] at h
    split_ifs at h
    all_goals
      first
      | exact InitOutcome.noConfusion h
      | (injection h with h'
         rw [← h']
         rfl)

lemma initE_neg_thickness :
    initE [⟨-1, metal 0⟩] 4 = .ok (mkState [⟨-1, metal 0⟩] 4) := by
  have hb : blocksOk [⟨-1, metal 0⟩] ((4 : ℤ).toNat) := by
    show blocksOk [⟨-1, metal 0⟩] 4
    intro i hi
    rcases Nat.lt_one_iff.1 hi with rfl
    have h1 : layerStartZ [⟨-1, metal 0⟩] 4 1 = 4 :=
      layerStartZ_eq (by norm_num [cumThickness, totalThickness])
    refine ⟨?_, ?_, ?_⟩
    · rw [layerStartZ_zero]
    · rw [layerStartZ_zero, h1]; norm_num
    · rw [h1]; norm_num
  simp only [initE]
  rw [if_neg (by norm_num), if_neg (by norm_num [totalThickness]), if_pos hb]
  rfl

lemma initE_zero_points :
    initE [⟨1, metal 0⟩] 0 = .ok (mkState [⟨1, metal 0⟩] 0) := by
  have hb : blocksOk [⟨1, metal 0⟩] ((0 : ℤ).toNat) := by
    show blocksOk [⟨1, metal 0⟩] 0
    intro i hi
    rcases Nat.lt_one_iff.1 hi with rfl
    have h1 : layerStartZ [⟨1, metal 0⟩] 0 1 = 0 :=
      layerStartZ_eq (by norm_num [cumThickness, totalThickness])
    refine ⟨?_, ?_, ?_⟩
    · rw [layerStartZ_zero]
    · rw [layerStartZ_zero, h1]
    · rw [h1]; norm_num
  simp only [initE]
  rw [if_neg (by norm_num), if_neg (by norm_num [totalThickness]), if_pos hb]
  rfl

/-- C9 counterexample: a device with a single layer of thickness -1 (an
invalid, non-positive thickness) is constructed silently: the
failure-aware constructor returns a fully built state, no error is raised
and nothing is reported to the caller, contradicting "never silently
coerced into a constructed device". -/
theorem invalid_input_accepted_counterexample :
    (-1 : ℝ) < 0 ∧ initE [⟨-1, metal 0⟩] 4 = .ok (mkState [⟨-1, metal 0⟩] 4) :=
  ⟨by norm_num, initE_neg_thickness⟩

/-- C9 amended: construction does fail for several invalid inputs — the
empty layer list (a message is printed and no state is initialized, without
an exception), a negative point count (`np.linspace` raises ValueError),
and a non-empty layer list of zero total thickness (the span computation
raises ZeroDivisionError) — but the validation is not systematic: a
negative layer thickness with nonzero total thickness, and a zero point
count, are silently accepted and yield a fully constructed device. -/
theorem init_validation_partial :
    (∀ n : ℤ, initE [] n = .printOnly) ∧
    (∀ (l : Layer) (ls : List Layer) (n : ℤ), n < 0 → initE (l :: ls) n = .valueError) ∧
    (∀ (l : Layer) (ls : List Layer) (n : ℤ), 0 ≤ n → totalThickness (l :: ls) = 0 →
      initE (l :: ls) n = .zeroDivision) ∧
    initE [⟨-1, metal 0⟩] 4 = .ok (mkState [⟨-1, metal 0⟩] 4) ∧
    initE [⟨1, metal 0⟩] 0 = .ok (mkState [⟨1, metal 0⟩] 0) := by
  refine ⟨fun n => rfl, ?_, ?_, initE_neg_thickness, initE_zero_points⟩
  · intro l ls n hn
    simp only [initE]
    rw [if_pos hn]
  · intro l ls n hn hT
    simp only [initE]
    rw [if_neg (by omega : ¬ n < 0), if_pos hT]

/-- C9 witness: the amended theorem's failure clauses applied at concrete
inputs — a negative point count yields the ValueError outcome and a
zero-thickness single layer yields the ZeroDivisionError outcome. -/
theorem init_validation_partial_witness :
    ((-3 : ℤ) < 0 ∧ initE [⟨1, metal 0⟩] (-3) = .valueError) ∧
    ((0 : ℤ) ≤ 5 ∧ totalThickness [⟨0, metal 0⟩] = 0 ∧
      initE [⟨0, metal 0⟩] 5 = .zeroDivision) := by
  have hT : totalThickness [⟨(0 : ℝ), metal 0⟩] = 0 := by
    norm_num [totalThickness]
  refine ⟨⟨by norm_num, ?_⟩, by norm_num, hT, ?_⟩
  · exact init_validation_partial.2.1 _ [] _ (by norm_num)
  · exact init_validation_partial.2.2.1 _ [] _ (by norm_num) hT

/-- C10: a call of bend with apply_to_fermi false leaves the Fermi array
unchanged at every grid point (and preserves the interface list and layer
list): only the level arrays Ec, Ev, E0 are modified. -/
theorem bend_default_preserves_Ef (s : State) (j : ℕ) :
    (bend false s).Ef j = s.Ef j ∧ (bend false s).interfaces = s.interfaces ∧
    (bend false s).layers = s.layers := by
  refine ⟨?_, ?_, ?_⟩
  · show (bendPass false s).Ef j = s.Ef j
    rw [show (bendPass false s).Ef = s.Ef from foldl_bendStep_false_Ef _ _]
  · show (bendPass false s).interfaces = s.interfaces
    exact foldl_bendStep_false_interfaces _ _
  · show (bendPass false s).layers = s.layers
    exact foldl_bendStep_false_layers _ _

end Band

namespace Band

/-- C2: per interface, the bending array built by `__bend` equals the
quadratic `sign(ΔV)·c·density_left/ε_left·(x − x_interface + depletion_left)²`
at the grid points of the left window `[start, position)`, the mirrored
quadratic `−sign(ΔV)·c·density_right/ε_right·(x − x_interface − depletion_right)²`
at the grid points of the right window `[position, end)`, and zero at every
grid point outside this window.  Here `c = 1e-8·e/(2·ε₀)` folds in the
elementary charge, ε₀ and the unit-conversion constant,
`x_interface = position·thickness/n_points` is the interface position used
by the code, and the windows are the code's rounded index ranges realising
`[interface − depletion_left, interface]` and
`[interface, interface + depletion_right]` on the grid. -/
theorem bending_profile_quadratic (s : State) (fermi : Bool) (i pos j : ℕ)
    (hsp : (bendStart s fermi i pos).toNat ≤ pos)
    (hpe : pos ≤ (bendEnd s fermi i pos).toNat) :
    ((bendStart s fermi i pos).toNat ≤ j ∧ j < pos →
      bending s fermi i pos j =
        npSign (deltaV s fermi pos) * (1e-8 * E_CHARGE / (2 * EPSILON_0)) *
          (layerDensity s.layers i / layerEpsilon s.layers i) *
          (gridPoint (totalThickness s.layers) s.nPoints j -
            (pos : ℝ) * totalThickness s.layers / s.nPoints +
            depletion_left s fermi i pos) ^ 2) ∧
    (pos ≤ j ∧ j < (bendEnd s fermi i pos).toNat →
      bending s fermi i pos j =
        -(npSign (deltaV s fermi pos) * (1e-8 * E_CHARGE / (2 * EPSILON_0)) *
          (layerDensity s.layers (i + 1) / layerEpsilon s.layers (i + 1))) *
          (gridPoint (totalThickness s.layers) s.nPoints j -
            (pos : ℝ) * totalThickness s.layers / s.nPoints -
            depletion_right s fermi i pos) ^ 2) ∧
    (j < (bendStart s fermi i pos).toNat ∨ (bendEnd s fermi i pos).toNat ≤ j →
      bending s fermi i pos j = 0) := by
  refine ⟨?_, ?_, ?_⟩
  · rintro ⟨h1, h2⟩
    unfold bending
    rw [if_neg (by omega), if_pos h2]
    unfold bendC
    ring
  · rintro ⟨h1, h2⟩
    unfold bending
    rw [if_neg (by omega), if_neg (by omega), if_pos h2]
    unfold bendC
    ring
  · rintro (h | h)
    · unfold bending
      rw [if_pos h]
    · unfold bending
      rw [if_neg (by omega), if_neg (by omega), if_neg (by omega)]

/-- C2 witness: on the concrete device `ovDev`, at grid point 1 inside the
left window `[0, 2)` of its single interface, the bending contribution
equals the left quadratic. -/
theorem bending_profile_quadratic_witness :
    (bendStart ovDev false 0 2).toNat ≤ 2 ∧ 2 ≤ (bendEnd ovDev false 0 2).toNat ∧
    ((bendStart ovDev false 0 2).toNat ≤ 1 ∧ 1 < 2) ∧
    bending ovDev false 0 2 1 =
      npSign (deltaV ovDev false 2) * (1e-8 * E_CHARGE / (2 * EPSILON_0)) *
        (layerDensity ovDev.layers 0 / layerEpsilon ovDev.layers 0) *
        (gridPoint (totalThickness ovDev.layers) ovDev.nPoints 1 -
          ((2 : ℕ) : ℝ) * totalThickness ovDev.layers / ovDev.nPoints +
          depletion_left ovDev false 0 2) ^ 2 := by
  have h1 : (bendStart ovDev false 0 2).toNat ≤ 2 := by
    rw [ovDev_bendStart]; exact Nat.zero_le 2
  have h2 : (2 : ℕ) ≤ (bendEnd ovDev false 0 2).toNat := by
    rw [ovDev_bendEnd]; decide
  have h3 : (bendStart ovDev false 0 2).toNat ≤ 1 := by
    rw [ovDev_bendStart]; exact Nat.zero_le 1
  exact ⟨h1, h2, ⟨h3, by norm_num⟩,
    (bending_profile_quadratic ovDev false 0 2 1 h1 h2).1 ⟨h3, by norm_num⟩⟩

/-- C4: at every interface, independently for each side: if the computed
depletion width exceeds that side's layer thickness, the corresponding
window bound is computed from the layer thickness (the clamped width) and
the offending layer's index is recorded in the overflow-warning payload;
otherwise the bound is computed from the depletion width itself and the
layer is not reported.  All the involved functions are total, so execution
continues with the clamped window in the overflow case — it never fails. -/
theorem overflow_clamp (s : State) (fermi : Bool) (i pos : ℕ) :
    (depletion_left s fermi i pos > layerThickness s.layers i →
      bendStart s fermi i pos =
        pyRound ((pos : ℝ) - layerThickness s.layers i / totalThickness s.layers * s.nPoints) ∧
      i ∈ overflow s fermi i pos) ∧
    (¬ depletion_left s fermi i pos > layerThickness s.layers i →
      bendStart s fermi i pos =
        pyRound ((pos : ℝ) - depletion_left s fermi i pos / totalThickness s.layers * s.nPoints) ∧
      i ∉ overflow s fermi i pos) ∧
    (depletion_right s fermi i pos > layerThickness s.layers (i + 1) →
      bendEnd s fermi i pos =
        pyRound ((pos : ℝ) + layerThickness s.layers (i + 1) / totalThickness s.layers * s.nPoints) ∧
      i + 1 ∈ overflow s fermi i pos) ∧
    (¬ depletion_right s fermi i pos > layerThickness s.layers (i + 1) →
      bendEnd s fermi i pos =
        pyRound ((pos : ℝ) + depletion_right s fermi i pos / totalThickness s.layers * s.nPoints) ∧
      i + 1 ∉ overflow s fermi i pos) := by
  refine ⟨fun h => ⟨?_, ?_⟩, fun h => ⟨?_, ?_⟩, fun h => ⟨?_, ?_⟩, fun h => ⟨?_, ?_⟩⟩
  · unfold bendStart; rw [if_pos h]
  · unfold overflow; rw [if_pos h]; simp
  · unfold bendStart; rw [if_neg h]
  · unfold overflow
    rw [if_neg h, List.nil_append]
    split_ifs with hc
    · simp
    · simp
  · unfold bendEnd; rw [if_pos h]
  · unfold overflow; rw [if_pos h]; simp
  · unfold bendEnd; rw [if_neg h]
  · unfold overflow
    rw [if_neg h, List.append_nil]
    split_ifs with hc
    · simp
    · simp

/-- C4 witness: on `ovDev` both depletion widths (1 µm) exceed the layer
thicknesses (1/4 µm); both window bounds are computed from the thicknesses
and both layers are reported in the overflow payload. -/
theorem overflow_clamp_witness :
    depletion_left ovDev false 0 2 > layerThickness ovDev.layers 0 ∧
    (bendStart ovDev false 0 2 =
      pyRound (((2 : ℕ) : ℝ) -
        layerThickness ovDev.layers 0 / totalThickness ovDev.layers * ovDev.nPoints) ∧
      0 ∈ overflow ovDev false 0 2) ∧
    depletion_right ovDev false 0 2 > layerThickness ovDev.layers 1 ∧
    (bendEnd ovDev false 0 2 =
      pyRound (((2 : ℕ) : ℝ) +
        layerThickness ovDev.layers 1 / totalThickness ovDev.layers * ovDev.nPoints) ∧
      1 ∈ overflow ovDev false 0 2) := by
  have hl : depletion_left ovDev false 0 2 > layerThickness ovDev.layers 0 := by
    rw [ovDev_depl_left, ovDev_thickness0]; norm_num
  have hr : depletion_right ovDev false 0 2 > layerThickness ovDev.layers 1 := by
    rw [ovDev_depl_right, ovDev_thickness1]; norm_num
  exact ⟨hl, (overflow_clamp ovDev false 0 2).1 hl, hr,
    (overflow_clamp ovDev false 0 2).2.2.1 hr⟩

/-- C7: after any finite sequence of bend / apply_voltage calls, a reset
call restores the device exactly — and hence within the 1e-10 tolerance —
to the state of a freshly constructed device with the same layers:
construction on the same layer list yields precisely the reset state
(level arrays, Fermi array and interface list included). -/
theorem reset_restores_fresh (L : List Layer) (n0 n : ℕ) (ops : List Op) (hL : L ≠ []) :
    init L n = some (reset (applyOps (mkState L n0) ops) n) := by
  have hlayers : (applyOps (mkState L n0) ops).layers = L := applyOps_layers ops _
  unfold reset
  rw [hlayers]
  cases L with
  | nil => exact absurd rfl hL
  | cons a l => rfl

/-- C7 witness: concrete instance with a one-layer metal device and the
empty call history. -/
theorem reset_restores_fresh_witness :
    init [⟨1, metal 0⟩] 4 = some (reset (applyOps (mkState [⟨1, metal 0⟩] 4) []) 4) :=
  reset_restores_fresh [⟨1, metal 0⟩] 4 4 [] (by simp)

end Band

namespace Band

/-! ### Structure of the grid partition (for C8) -/

lemma cumThickness_nil (i : ℕ) : cumThickness [] i = 0 := by cases i <;> rfl

lemma cumThickness_nonneg (L : List Layer) (h : ∀ l ∈ L, 0 ≤ l.thickness) (i : ℕ) :
    0 ≤ cumThickness L i := by
  induction L generalizing i with
  | nil => rw [cumThickness_nil]
  | cons a l ih =>
    cases i with
    | zero => exact le_refl 0
    | succ i =>
      have h1 : 0 ≤ a.thickness := h a (by simp)
      have h2 : 0 ≤ cumThickness l i := ih (fun x hx => h x (by simp [hx])) i
      show 0 ≤ a.thickness + cumThickness l i
      linarith

lemma cumThickness_le_succ (L : List Layer) (h : ∀ l ∈ L, 0 ≤ l.thickness) (i : ℕ) :
    cumThickness L i ≤ cumThickness L (i + 1) := by
  induction L generalizing i with
  | nil => rw [cumThickness_nil, cumThickness_nil]
  | cons a l ih =>
    cases i with
    | zero =>
      have h1 : 0 ≤ a.thickness := h a (by simp)
      have h2 : 0 ≤ cumThickness l 0 := cumThickness_nonneg l (fun x hx => h x (by simp [hx])) 0
      show cumThickness (a :: l) 0 ≤ a.thickness + cumThickness l 0
      show (0 : ℝ) ≤ a.thickness + cumThickness l 0
      linarith
    | succ i =>
      have h2 := ih (fun x hx => h x (by simp [hx])) i
      show a.thickness + cumThickness l i ≤ a.thickness + cumThickness l (i + 1)
      linarith

lemma cumThickness_mono (L : List Layer) (h : ∀ l ∈ L, 0 ≤ l.thickness) {i j : ℕ}
    (hij : i ≤ j) : cumThickness L i ≤ cumThickness L j :=
  monotone_nat_of_le_succ (cumThickness_le_succ L h) hij

lemma cumThickness_length (L : List Layer) : cumThickness L L.length = totalThickness L := by
  induction L with
  | nil => rfl
  | cons a l ih =>
    show a.thickness + cumThickness l l.length = totalThickness (a :: l)
    rw [ih]
    simp [totalThickness]

lemma totalThickness_nonneg (L : List Layer) (h : ∀ l ∈ L, 0 ≤ l.thickness) :
    0 ≤ totalThickness L := by
  unfold totalThickness
  apply List.sum_nonneg
  intro x hx
  rcases List.mem_map.1 hx with ⟨l, hl, rfl⟩
  exact h l hl

lemma totalThickness_pos (L : List Layer) (hL : L ≠ [])
    (hpos : ∀ l ∈ L, 0 < l.thickness) : 0 < totalThickness L := by
  cases L with
  | nil => exact absurd rfl hL
  | cons a l =>
    have he : totalThickness (a :: l) = a.thickness + totalThickness l := by
      simp [totalThickness]
    rw [he]
    have h1 := hpos a (by simp)
    have h2 := totalThickness_nonneg l (fun x hx => (hpos x (by simp [hx])).le)
    linarith

lemma cumThickness_zero (L : List Layer) : cumThickness L 0 = 0 := by cases L <;> rfl

lemma layerStart_zero (L : List Layer) (n : ℕ) : layerStart L n 0 = 0 := by
  unfold layerStart
  rw [cumThickness_zero, zero_div, zero_mul]
  rw [show (0 : ℝ) = ((0 : ℤ) : ℝ) by norm_num, pyRound_intCast]
  rfl

lemma layerStart_mono (L : List Layer) (n : ℕ) (hpos : ∀ l ∈ L, 0 < l.thickness)
    (hT : 0 < totalThickness L) {i j : ℕ} (hij : i ≤ j) :
    layerStart L n i ≤ layerStart L n j := by
  unfold layerStart
  apply Int.toNat_le_toNat
  apply pyRound_mono
  have hc := cumThickness_mono L (fun l hl => (hpos l hl).le) hij
  exact mul_le_mul_of_nonneg_right ((div_le_div_iff_of_pos_right hT).2 hc) (by positivity)

lemma layerStart_length (L : List Layer) (n : ℕ) (hT : 0 < totalThickness L) :
    layerStart L n L.length = n := by
  unfold layerStart
  rw [cumThickness_length, div_self hT.ne', one_mul]
  rw [show ((n : ℕ) : ℝ) = ((n : ℤ) : ℝ) by norm_num, pyRound_intCast, Int.toNat_natCast]

end Band

namespace Band

/-- C8 counterexample: the two-layer device with thicknesses 1 and 999 µm on
10 grid points satisfies the claim's preconditions (non-empty, all
thicknesses positive, at least 2 points), yet its recorded interface index
is 0 — not strictly between 0 and n_points (so also not part of a strictly
increasing sequence inside (0, 10)). -/
theorem interface_bounds_counterexample :
    (thinDev.layers ≠ [] ∧ (∀ l ∈ thinDev.layers, 0 < l.thickness) ∧ 2 ≤ 10) ∧
    ¬ (∀ p ∈ thinDev.interfaces, 0 < p ∧ p < 10) := by
  refine ⟨⟨by simp [thinDev, mkState], ?_, by norm_num⟩, ?_⟩
  · intro l hl
    simp only [thinDev, mkState, List.mem_cons, List.mem_singleton,
      List.not_mem_nil, or_false] at hl
    rcases hl with rfl | rfl <;> norm_num
  · intro hall
    have h0 := hall 0 (by rw [thinDev_interfaces]; simp)
    exact absurd h0.1 (lt_irrefl 0)

/-- C8 amended: for every non-empty layer list with positive thicknesses and
n_points ≥ 2, the layer index spans do partition `[0, n_points)`
contiguously and without overlap (the span of layer i is
`[layerStart i, layerStart (i+1))`, the first span starts at 0, the last
ends at n_points, consecutive bounds are nondecreasing, and every grid
point lies in exactly one span); the recorded interface indices are
nondecreasing — but not necessarily strictly increasing — and lie in the
closed range `[0, n_points]` rather than strictly between 0 and n_points. -/
theorem interface_partition_amended (L : List Layer) (n : ℕ) (hL : L ≠ [])
    (hpos : ∀ l ∈ L, 0 < l.thickness) (_hn : 2 ≤ n) :
    layerStart L n 0 = 0 ∧
    layerStart L n L.length = n ∧
    (∀ i j, i ≤ j → layerStart L n i ≤ layerStart L n j) ∧
    (∀ p ∈ (mkState L n).interfaces, p ≤ n) ∧
    (mkState L n).interfaces.Pairwise (· ≤ ·) ∧
    (∀ k, k < n →
      ∃! i2, i2 < L.length ∧ layerStart L n i2 ≤ k ∧ k < layerStart L n (i2 + 1)) := by
  have hT : 0 < totalThickness L := totalThickness_pos L hL hpos
  have hmono : ∀ i j : ℕ, i ≤ j → layerStart L n i ≤ layerStart L n j :=
    fun i j hij => layerStart_mono L n hpos hT hij
  have hlen : layerStart L n L.length = n := layerStart_length L n hT
  refine ⟨layerStart_zero L n, hlen, hmono, ?_, ?_, ?_⟩
  · intro p hp
    have hp' : p ∈ (List.range L.length).map (layerStart L n) := List.mem_of_mem_tail hp
    rcases List.mem_map.1 hp' with ⟨i, hi, rfl⟩
    calc layerStart L n i ≤ layerStart L n L.length := hmono _ _ (List.mem_range.1 hi).le
      _ = n := hlen
  · have hp : ((List.range L.length).map (layerStart L n)).Pairwise (· ≤ ·) := by
      refine (List.pairwise_map).2 ?_
      exact (List.pairwise_lt_range _).imp (fun h => hmono _ _ h.le)
    exact hp.sublist (List.tail_sublist _)
  · intro k hk
    set P : ℕ → Prop := fun m => layerStart L n m ≤ k with hP
    have hP0 : P 0 := by rw [hP]; simp only [layerStart_zero]; exact Nat.zero_le k
    set i := Nat.findGreatest P L.length with hi
    have hPi : P i := Nat.findGreatest_spec (Nat.zero_le _) hP0
    have hilen : i ≤ L.length := Nat.findGreatest_le _
    have hlt : i < L.length := by
      rcases eq_or_lt_of_le hilen with he | h
      · exfalso
        rw [he] at hPi
        have hc : layerStart L n L.length ≤ k := hPi
        rw [hlen] at hc
        omega
      · exact h
    have hnext : ¬ P (i + 1) :=
      Nat.findGreatest_is_greatest (Nat.lt_succ_self i) (by omega)
    refine ⟨i, ⟨hlt, hPi, ?_⟩, ?_⟩
    · exact Nat.lt_of_not_le hnext
    · rintro j ⟨hj1, hj2, hj3⟩
      by_contra hne
      rcases Nat.lt_or_ge j i with hji | hij
      · have : layerStart L n (j + 1) ≤ layerStart L n i := hmono _ _ (by omega)
        omega
      · have hij' : i < j := by omega
        have : layerStart L n (i + 1) ≤ layerStart L n j := hmono _ _ (by omega)
        have : layerStart L n (i + 1) ≤ k := by omega
        exact hnext this

/-- C8 witness for the amended statement: the single-metal-layer device on
two grid points. -/
theorem interface_partition_amended_witness :
    (([⟨1, metal 0⟩] : List Layer) ≠ [] ∧
      (∀ l ∈ ([⟨1, metal 0⟩] : List Layer), 0 < l.thickness) ∧ 2 ≤ 2) ∧
    layerStart [⟨1, metal 0⟩] 2 0 = 0 ∧ layerStart [⟨1, metal 0⟩] 2 1 = 2 := by
  have hpos : ∀ l ∈ ([⟨1, metal 0⟩] : List Layer), 0 < l.thickness := by
    intro l hl
    rcases List.mem_singleton.1 hl with rfl
    norm_num
  have h := interface_partition_amended [⟨1, metal 0⟩] 2 (by simp) hpos (le_refl 2)
  exact ⟨⟨by simp, hpos, le_refl 2⟩, h.1, by simpa using h.2.1⟩

end Band
